import Mathlib

/-!
Verification development for the rddms_admin_ui repository
(Reference-Graph Resolution and Manifest Assembly Engine).

The Python sources under src/app are shallowly embedded below:
  - osdu.py        : URI construction, reference normalization, URI gathering,
                     deduplication, manifest assembly (the HEAD side of the
                     merge-conflicted file, which is the version the claims cite)
  - tools/resqml_graph.py : the breadth-first reference-graph traversal
  - schemahandler.py      : the OSDU link scanner
  - main.py        : the keys_object response-shape normalization

Conventions of the embedding:
  - Python strings are modeled as Lean String / List Char (ASCII word
    characters; the Python re module \w class is modeled as ASCII
    alphanumeric or underscore).
  - JSON-like Python data (dict / list / scalars) is the inductive Json below.
    Dict iteration order is the field-list order, matching Python 3
    insertion-ordered dicts. Numbers are modeled as Int (no float appears in
    any code path the claims touch).
  - HTTP calls are abstracted as oracles returning Except Nat Json, where the
    Nat is the HTTP status code carried by the raised HTTPStatusError.
  - Some presentation-only data (pyvis graph labels, edge titles) is not
    modeled; comments at the definitions note every such omission.
-/

/-! ## Python-style string primitives (on List Char) -/

/-- The single-quote character, built numerically (ASCII 39). -/
def squot : Char := Char.ofNat 39

/-- The single-quote character as a one-character string. -/
def squots : String := String.mk [squot]

/-- Python str.strip: drop leading and trailing whitespace. -/
def pyStrip (s : List Char) : List Char :=
  ((s.dropWhile Char.isWhitespace).reverse.dropWhile Char.isWhitespace).reverse

/-- Python substring test: pat in s (non-empty-window containment;
for pat = [] this returns true only on [], which no call site exercises). -/
def containsSub (pat : List Char) : List Char → Bool
  | [] => pat.isEmpty
  | c :: rest => pat.isPrefixOf (c :: rest) || containsSub pat rest

/-- Python str.split(sep) for a non-empty separator: split on every
non-overlapping occurrence, left to right. For sep = [] it degenerates
(never called that way: the sources only split on "type="). -/
def pySplit (sep : List Char) : List Char → List (List Char)
  | [] => [[]]
  | c :: rest =>
    if h : sep ≠ [] ∧ sep.isPrefixOf (c :: rest) then
      [] :: pySplit sep (List.drop sep.length (c :: rest))
    else
      match pySplit sep rest with
      | [] => [[c]]
      | seg :: segs => (c :: seg) :: segs
termination_by s => s.length
decreasing_by
  · simp only [List.length_drop, List.length_cons]
    have hlen : 1 ≤ sep.length := by
      cases sep with
      | nil => exact absurd rfl h.1
      | cons a l => simp
    omega
  · simp

/-- Python s[s.find(pat):] under the guard pat in s: the suffix of s starting
at the first occurrence of pat (the sources only evaluate this under that
guard; without an occurrence this returns []). -/
def dropUntilSub (pat : List Char) : List Char → List Char
  | [] => []
  | c :: rest => if pat.isPrefixOf (c :: rest) then c :: rest else dropUntilSub pat rest

/-- Python str.lower (ASCII). -/
def pyLower (s : List Char) : List Char := s.map Char.toLower

/-! ## JSON value model -/

/-- JSON-like Python values (None / bool / number / str / list / dict). -/
inductive Json where
  | null : Json
  | bool (b : Bool) : Json
  | num (n : Int) : Json
  | str (s : String) : Json
  | arr (elems : List Json) : Json
  | obj (fields : List (String × Json)) : Json

/-- Python truthiness of a JSON value. -/
def pyTruthy : Json → Bool
  | .null => false
  | .bool b => b
  | .num n => n != 0
  | .str s => s != ""
  | .arr xs => !xs.isEmpty
  | .obj fs => !fs.isEmpty

/-- Python str() of a JSON value. Scalar cases match Python exactly; the
container cases are placeholders (Python would render a repr string) and are
never reached in any claim: the sources only apply str() to id values, which
are scalars in every store response. -/
def pyStr : Json → String
  | .str s => s
  | .num n => toString n
  | .bool true => "True"
  | .bool false => "False"
  | .null => "None"
  | .arr _ => "<list>"
  | .obj _ => "<dict>"

/-- Python dict.get on the field list (first matching key). -/
def pyGet (fields : List (String × Json)) (key : String) : Option Json :=
  match fields with
  | [] => none
  | (k, v) :: fs => if k = key then some v else pyGet fs key

/-- Python key-containment test: key in dict. -/
def hasKey (fields : List (String × Json)) (key : String) : Bool :=
  match fields with
  | [] => false
  | (k, _) :: fs => k = key || hasKey fs key

/-- Python dict.get filtered through truthiness, so that
a.get(k) or a.get(k2) chains can be modeled with Option.orElse:
the result is some v exactly when the value is present and truthy. -/
def getTruthy (fields : List (String × Json)) (key : String) : Option Json :=
  match pyGet fields key with
  | some v => if pyTruthy v then some v else none
  | none => none

/-- Like getTruthy but insisting on a string value. The sources feed these
values into str.split and f-strings, which require str; non-string truthy
values here would raise TypeError downstream in Python and do not occur in
store responses, so the embedding drops them. -/
def getTruthyStr (fields : List (String × Json)) (key : String) : Option String :=
  match pyGet fields key with
  | some (.str s) => if s ≠ "" then some s else none
  | _ => none

/-! ## osdu.py : URI helpers, reference extraction, gathering, manifest body -/

/-- The split marker "type=" as characters. -/
def tyEq : List Char := ['t', 'y', 'p', 'e', '=']

/-- The marker "obj_" as characters. -/
def objMark : List Char := ['o', 'b', 'j', '_']

/-- The namespace "resqml20." as characters. -/
def resqml20Dot : List Char := ['r', 'e', 's', 'q', 'm', 'l', '2', '0', '.']

/-- The marker "resqml20.obj_" as characters. -/
def resqml20Obj : List Char := resqml20Dot ++ objMark

/-- osdu._type_from_content_type, character-list core.
Python: split the content type on "type="; if fewer than two parts return
None; strip part 1; if it starts with "obj_" return "resqml20." + it; else
if it contains "resqml20.obj_" return the suffix from that occurrence,
stripped; else None. -/
def typeFromCTCore (ct : List Char) : Option (List Char) :=
  if ct = [] then none
  else
    match pySplit tyEq ct with
    | _ :: t0 :: _ =>
      let t := pyStrip t0
      if objMark.isPrefixOf t then some (resqml20Dot ++ t)
      else if containsSub resqml20Obj t then some (pyStrip (dropUntilSub resqml20Obj t))
      else none
    | _ => none

/-- osdu._type_from_content_type on String. -/
def _type_from_content_type (ct : String) : Option String :=
  (typeFromCTCore ct.data).map String.mk

/-- osdu._dataspace_uri: the dataspace-level canonical URI. -/
def _dataspace_uri (path : String) : String :=
  "eml:///dataspace(" ++ squots ++ path ++ squots ++ ")"

/-- osdu.uri_from_ref: build an EML URI for a reference in the same
dataspace, or None when the type cannot be inferred or the id is falsy. -/
def uri_from_ref (ds_path content_type uuid : String) : Option String :=
  match _type_from_content_type content_type with
  | none => none
  | some typ =>
    if uuid = "" then none
    else some ("eml:///dataspace(" ++ squots ++ ds_path ++ squots ++ ")/"
               ++ typ ++ "(" ++ uuid ++ ")")

/-- The URI built inline for a selected object in
osdu.gather_selected_uris_with_refs (the f-string at line 341). -/
def selection_uri (ds_path typ uuid : String) : String :=
  "eml:///dataspace(" ++ squots ++ ds_path ++ squots ++ ")/" ++ typ ++ "(" ++ uuid ++ ")"

/-- One extracted DataObjectReference-like edge: contentType and uuid.
The pyvis Title field carried by the resqml_graph variant is
presentation-only (graph labels) and not modeled. -/
structure RefEdge where
  contentType : String
  uuid : String
deriving DecidableEq, Repr

/-- The per-dict candidate edge of osdu.extract_refs:
ct = x.get("ContentType"); uid = x.get("UUID") or x.get("Uuid");
if ct and uid: append one edge with uuid = str(uid). -/
def dorEdgeOsdu (fields : List (String × Json)) : List RefEdge :=
  match getTruthyStr fields "ContentType",
        (getTruthy fields "UUID").orElse (fun _ => getTruthy fields "Uuid") with
  | some ct, some uid => [{ contentType := ct, uuid := pyStr uid }]
  | _, _ => []

mutual

/-- osdu.extract_refs: recursive walk collecting DataObjectReference-like
dicts (candidate edge first, then the values of the dict in order). -/
def extract_refs : Json → List RefEdge
  | .obj fields => dorEdgeOsdu fields ++ extractRefsFields fields
  | .arr xs => extractRefsElems xs
  | _ => []

/-- Walk of the values of a dict, in field order. -/
def extractRefsFields : List (String × Json) → List RefEdge
  | [] => []
  | (_, v) :: fs => extract_refs v ++ extractRefsFields fs

/-- Walk of the elements of a list, in order. -/
def extractRefsElems : List Json → List RefEdge
  | [] => []
  | x :: xs => extract_refs x ++ extractRefsElems xs

end

/-- The dedup loop at the end of osdu.gather_selected_uris_with_refs:
seen set plus in-order output list. -/
def dedupSeenLoop (seen : List String) (out : List String) : List String → List String
  | [] => out
  | u :: us =>
    if u ∈ seen then dedupSeenLoop seen out us
    else dedupSeenLoop (u :: seen) (out ++ [u]) us

/-- unique-preserve-order deduplication (source comment: unique preserve order). -/
def unique_preserve_order (uris : List String) : List String :=
  dedupSeenLoop [] [] uris

/-- The per-selection loop of osdu.gather_selected_uris_with_refs.
fetch abstracts osdu.get_resource for the fixed dataspace: it returns the
fetched object or the HTTP status of a raised HTTPStatusError, which this
loop does not catch (any error aborts the whole call). -/
def gatherLoop (fetch : String → String → Except Nat Json) (ds_path : String)
    (include_refs : Bool) : List (String × String) → Except Nat (List String)
  | [] => .ok []
  | (typ, uuid) :: rest =>
    let primary := selection_uri ds_path typ uuid
    if include_refs then
      match fetch typ uuid with
      | .error e => .error e
      | .ok obj =>
        let refUris := (extract_refs obj).filterMap
          (fun r => uri_from_ref ds_path r.contentType r.uuid)
        match gatherLoop fetch ds_path include_refs rest with
        | .error e => .error e
        | .ok tail => .ok (primary :: (refUris ++ tail))
    else
      match gatherLoop fetch ds_path include_refs rest with
      | .error e => .error e
      | .ok tail => .ok (primary :: tail)

/-- osdu.gather_selected_uris_with_refs: gather selection URIs and
(optionally) immediate reference URIs, then dedup preserving order. -/
def gather_selected_uris_with_refs (fetch : String → String → Except Nat Json)
    (ds_path : String) (selections : List (String × String)) (include_refs : Bool) :
    Except Nat (List String) :=
  (gatherLoop fetch ds_path include_refs selections).map unique_preserve_order

/-- osdu.list_all_resource_uris, pure part: collect the truthy uri field of
every dict row (the HTTP listing itself is abstracted as the row list). -/
def list_all_resource_uris (rows : List Json) : List String :=
  rows.filterMap (fun x =>
    match x with
    | .obj fields => getTruthyStr fields "uri"
    | _ => none)

/-! Environment defaults of osdu.py, modeled at their os.getenv fallback
values (DATA_PARTITION_ID unset, hence the dp1 / partition placeholders). -/

/-- Default legal tag (DATA_PARTITION_ID unset). -/
def DEFAULT_LEGAL_TAG : String := "dp1-RDDMS-Legal-Tag"

/-- Default owners list. -/
def DEFAULT_OWNERS : List String := ["data.default.owners@partition.dataservices.energy"]

/-- Default viewers list. -/
def DEFAULT_VIEWERS : List String := ["data.default.viewers@partition.dataservices.energy"]

/-- Default countries list. -/
def DEFAULT_COUNTRIES : List String := ["US"]

/-- Python x or default for an optional string argument (None and the empty
string both fall back). -/
def orElseStr (x : Option String) (d : String) : String :=
  match x with
  | some s => if s = "" then d else s
  | none => d

/-- Python x or default for an optional list argument (None and [] both fall
back). -/
def orElseList (x : Option (List String)) (d : List String) : List String :=
  match x with
  | some l => if l = [] then d else l
  | none => d

/-- The POST body assembled by osdu.build_manifest. -/
structure ManifestBody where
  uris : List String
  owners : List String
  viewers : List String
  legaltags : List String
  countries : List String
  createMissingReferences : Bool
deriving DecidableEq, Repr

/-- osdu.build_manifest, pure part: default resolution, URI resolution
(explicit_uris if truthy and non-empty; else all-resources listing with a
dataspace-URI fallback when it is empty; else the dataspace URI), and body
assembly. allRows abstracts the /resources/all HTTP response. -/
def build_manifest_body (path : String) (legal_tag : Option String)
    (owners viewers countries : Option (List String))
    (create_missing_refs : Bool) (use_all_resources : Bool)
    (explicit_uris : Option (List String)) (allRows : List Json) : ManifestBody :=
  let lt := orElseStr legal_tag DEFAULT_LEGAL_TAG
  let ow := orElseList owners DEFAULT_OWNERS
  let vw := orElseList viewers DEFAULT_VIEWERS
  let co := orElseList countries DEFAULT_COUNTRIES
  let uris :=
    if (match explicit_uris with | some l => !l.isEmpty | none => false) = true then
      explicit_uris.getD []
    else if use_all_resources then
      let got := list_all_resource_uris allRows
      if got = [] then [_dataspace_uri path] else got
    else [_dataspace_uri path]
  { uris := uris, owners := ow, viewers := vw, legaltags := [lt],
    countries := co, createMissingReferences := create_missing_refs }

/-! ## tools/resqml_graph.py : fetch normalization and BFS traversal -/

/-- The add_ref candidate of resqml_graph._extract_refs: walk recognizes a
dict with a ContentType key and one of the UUID / Uuid / uuid keys, and
add_ref appends an edge when both the content type and the id are truthy
(the Title field is presentation-only and not modeled). -/
def dorEdgeGraph (fields : List (String × Json)) : List RefEdge :=
  if hasKey fields "ContentType"
      && (hasKey fields "UUID" || hasKey fields "Uuid" || hasKey fields "uuid") then
    match (getTruthyStr fields "ContentType").orElse
            (fun _ => getTruthyStr fields "contentType"),
          (getTruthyStr fields "UUID").orElse
            (fun _ => (getTruthyStr fields "Uuid").orElse
              (fun _ => getTruthyStr fields "uuid")) with
    | some ct, some uu => [{ contentType := ct, uuid := uu }]
    | _, _ => []
  else []

mutual

/-- resqml_graph._extract_refs walk: candidate edge first, then the values
of the dict (or the elements of a list) in order. -/
def graphWalk : Json → List RefEdge
  | .obj fields => dorEdgeGraph fields ++ graphWalkFields fields
  | .arr xs => graphWalkElems xs
  | _ => []

/-- Walk of dict values, in field order. -/
def graphWalkFields : List (String × Json) → List RefEdge
  | [] => []
  | (_, v) :: fs => graphWalk v ++ graphWalkFields fs

/-- Walk of list elements, in order. -/
def graphWalkElems : List Json → List RefEdge
  | [] => []
  | x :: xs => graphWalk x ++ graphWalkElems xs

end

/-- The dedup helper of resqml_graph._extract_refs: first-seen order, keyed
on the (uuid, contentType) pair. -/
def dedupEdgesLoop (seen : List (String × String)) (out : List RefEdge) :
    List RefEdge → List RefEdge
  | [] => out
  | e :: es =>
    if (e.uuid, e.contentType) ∈ seen then dedupEdgesLoop seen out es
    else dedupEdgesLoop ((e.uuid, e.contentType) :: seen) (out ++ [e]) es

/-- resqml_graph._extract_refs: deduplicated (targets, sources) pair. The
source never appends to the sources list (the walk classifies every
candidate as a target), so the second component is always empty. -/
def _extract_refs_graph (j : Json) : List RefEdge × List RefEdge :=
  (dedupEdgesLoop [] [] (graphWalk j), dedupEdgesLoop [] [] [])

/-- The list normalization at resqml_graph._get_resource line 41:
js[0] if isinstance(js, list) and js else js. -/
def normalizeGetResource : Json → Json
  | .arr (x :: _) => x
  | j => j

/-- resqml_graph._get_resource: HTTP GET of one node (abstracted as the
rawFetch oracle keyed by type and id; a non-success response raises, carried
as the error status), then list normalization. -/
def _get_resource (rawFetch : String → String → Except Nat Json)
    (typ uuid : String) : Except Nat Json :=
  match rawFetch typ uuid with
  | .error e => .error e
  | .ok js => .ok (normalizeGetResource js)

/-- The stub object built by resqml_graph.bfs when a node fetch raises
HTTPStatusError (str(e) modeled as the status rendering). -/
def stubObj (typ uuid : String) (e : Nat) : Json :=
  Json.obj [("$type", .str typ), ("Uuid", .str uuid), ("_error", .str (toString e))]

/-- The per-node fetch of resqml_graph.bfs: the object on success, the stub
on HTTPStatusError. Every status (401 and 403 included) is caught: the
except clause matches all of httpx.HTTPStatusError. -/
def fetchNode (rawFetch : String → String → Except Nat Json)
    (k : String × String) : Json :=
  match _get_resource rawFetch k.1 k.2 with
  | .ok obj => obj
  | .error e => stubObj k.1 k.2 e

/-- The title extraction of resqml_graph.bfs: Citation.Title when the object
and its Citation are dicts and the title is truthy, else the empty string. -/
def titleOf (obj : Json) : Json :=
  match obj with
  | .obj fields =>
    match pyGet fields "Citation" with
    | some (.obj cf) =>
      match pyGet cf "Title" with
      | some t => if pyTruthy t then t else .str ""
      | none => .str ""
    | _ => .str ""
  | _ => .str ""

/-- The target type derivation at resqml_graph.bfs line 103:
ct.split("type=")[-1] if "type=" in ct else ct. -/
def targetTypeOfCT (ct : String) : String :=
  if containsSub tyEq ct.data then String.mk ((pySplit tyEq ct.data).getLastD [])
  else ct

/-- A traversal node key: (type path, id), as used in the seen set. -/
abbrev NodeKey := String × String

/-- A queue entry: node key plus depth. -/
abbrev QEntry := NodeKey × Nat

/-- The node key of one extracted target edge. -/
def targetKeyOf (t : RefEdge) : NodeKey := (targetTypeOfCT t.contentType, t.uuid)

/-- The inner target loop of resqml_graph.bfs: for each target, when the
current depth is below the bound and the key is unseen, mark it seen and
append it to the queue at depth + 1. -/
def enqueueTargets (depthMax d : Nat) :
    List RefEdge → List QEntry → List NodeKey → List QEntry × List NodeKey
  | [], q, s => (q, s)
  | t :: ts, q, s =>
    let tk := targetKeyOf t
    if d < depthMax ∧ tk ∉ s then
      enqueueTargets depthMax d ts (q ++ [(tk, d + 1)]) (tk :: s)
    else enqueueTargets depthMax d ts q s

/-- The while loop of resqml_graph.bfs (lines 84 to 113), fuel-indexed:
pop a (key, depth) entry, fetch the node (stub on HTTPStatusError), record
it in the nodes map, extract targets, enqueue the unseen ones, recurse.
Returns the final (seen, nodes) state, or none when the fuel runs out (the
termination theorem below shows enough fuel always exists).

Note on the function entry (line 78): ds_enc is computed there via
an expression of the form dunder-import of urllib.parse followed by .quote,
which returns the top-level urllib package object; that package has no
quote attribute, so the real bfs raises AttributeError before this loop
ever runs. The loop below models the algorithm from line 80 onward with the
evident intent of that line (URL-encoding of the dataspace path, which only
feeds the HTTP URL and is folded into the rawFetch oracle). The pyvis graph
G built alongside is presentation-only and not modeled. -/
def bfsAux (rawFetch : String → String → Except Nat Json) (depthMax : Nat) :
    Nat → List QEntry → List NodeKey → List (NodeKey × Json) →
    Option (List NodeKey × List (NodeKey × Json))
  | _, [], seen, nodes => some (seen, nodes)
  | 0, _ :: _, _, _ => none
  | fuel + 1, (k, d) :: rest, seen, nodes =>
    let obj := fetchNode rawFetch k
    let nodes2 := nodes ++ [(k, titleOf obj)]
    let targets := (_extract_refs_graph obj).1
    let step := enqueueTargets depthMax d targets rest seen
    bfsAux rawFetch depthMax fuel step.1 step.2 nodes2

/-- The out-edge keys of one node, as bfs derives them. -/
def nodeTargetKeys (rawFetch : String → String → Except Nat Json)
    (k : NodeKey) : List NodeKey :=
  ((_extract_refs_graph (fetchNode rawFetch k)).1).map targetKeyOf

/-- Reachability from the seed along the edges bfs derives. -/
inductive Reach (rawFetch : String → String → Except Nat Json) (seed : NodeKey) :
    NodeKey → Prop
  | refl : Reach rawFetch seed seed
  | step {k k2 : NodeKey} (hk : Reach rawFetch seed k)
      (hmem : k2 ∈ nodeTargetKeys rawFetch k) : Reach rawFetch seed k2

/-! ## main.py : keys_object response-shape normalization -/

/-- isinstance(x, dict). -/
def isDictJson : Json → Bool
  | .obj _ => true
  | _ => false

/-- main.keys_object lines 589 to 594: when the fetched object is a list,
pick the first dict item if the list is non-empty (or the empty dict when
none is dict-shaped or the list is empty); non-list objects pass through. -/
def keys_object_normalize : Json → Json
  | .arr xs =>
    if xs.isEmpty then .obj []
    else
      match xs.find? isDictJson with
      | some d => d
      | none => .obj []
  | j => j

/-- The edges handed to the UI by main.keys_object: osdu.extract_refs on the
normalized object when it is a dict, the empty list otherwise (the non-dict
case returns early with edges = []). -/
def keys_object_edges (j : Json) : List RefEdge :=
  let o := keys_object_normalize j
  if isDictJson o then extract_refs o else []

/-! ## schemahandler.py : OSDU id detection and link scanning -/

/-- The re module class \w, ASCII part: alphanumeric or underscore. -/
def isWordChar (c : Char) : Bool := c.isAlphanum || c = '_'

/-- The leading character class of _OSDU_ID_RE: word, dash or dot. -/
def clsHead (c : Char) : Bool := isWordChar c || c = '-' || c = '.'

/-- The kind-name character class of _OSDU_ID_RE: word or dash. -/
def clsKind (c : Char) : Bool := isWordChar c || c = '-'

/-- The opaque-part character class of _OSDU_ID_RE: word, dash, dot, colon
or percent. -/
def clsTail (c : Char) : Bool :=
  isWordChar c || c = '-' || c = '.' || c = ':' || c = '%'

/-- Marker "work-product-component--". -/
def wpcMark : List Char := "work-product-component--".data

/-- Marker "work-product--". -/
def wpMark : List Char := "work-product--".data

/-- Marker "master-data--". -/
def mdMark : List Char := "master-data--".data

/-- Marker "reference-data--". -/
def refDataMark : List Char := "reference-data--".data

/-- The tail of _OSDU_ID_RE: one or more opaque-class characters, a colon,
then one or more digits at the end. Because the digit class excludes the
colon and the opaque class includes it, the only possible split point is the
last colon of the remainder, which this function locates deterministically
(equivalent to the backtracking regex semantics). -/
def osduIdTail (s : List Char) : Bool :=
  let r := s.reverse
  let ds := r.takeWhile (fun c => c != ':')
  match r.drop ds.length with
  | ':' :: restRev =>
    let d := ds.reverse
    let a := restRev.reverse
    !d.isEmpty && d.all Char.isDigit && !a.isEmpty && a.all clsTail
  | _ => false

/-- Full-match semantics of _OSDU_ID_RE:
one or more head-class characters, a colon, one of the three kind markers
(work-product-component-- / work-product-- / master-data--, mutually
exclusive as prefixes), one or more kind-class characters, a colon, then the
tail. The character classes exclude the colon, so each segment boundary is
deterministic and the greedy regex has the same semantics. The dollar anchor
is modeled as end-of-string (the re module would also accept one trailing
newline, which no identifier carries). -/
def osduIdCore (s : List Char) : Bool :=
  let p1 := s.takeWhile clsHead
  if p1.isEmpty then false
  else
    match s.drop p1.length with
    | ':' :: rest =>
      let rest2opt :=
        if wpcMark.isPrefixOf rest then some (rest.drop wpcMark.length)
        else if wpMark.isPrefixOf rest then some (rest.drop wpMark.length)
        else if mdMark.isPrefixOf rest then some (rest.drop mdMark.length)
        else none
      match rest2opt with
      | none => false
      | some rest2 =>
        let p2 := rest2.takeWhile clsKind
        if p2.isEmpty then false
        else
          match rest2.drop p2.length with
          | ':' :: rest3 => osduIdTail rest3
          | _ => false
    | _ => false

/-- schemahandler._looks_like_osdu_id: reject any string containing the
reference-data-- segment, else match the stripped string against
_OSDU_ID_RE. -/
def _looks_like_osdu_id (s : String) : Bool :=
  if containsSub refDataMark s.data then false
  else osduIdCore (pyStrip s.data)

/-- schemahandler._role_from_path: heuristic role labeling from the
lowercased JSON path. -/
def _role_from_path (path : String) : String :=
  let p := pyLower path.data
  if containsSub "riskids".data p then "risk"
  else if containsSub "prioractivityids".data p then "prior-activity"
  else if containsSub "parentworkproductid".data p then "parent-work-product"
  else if containsSub "parentobjectid".data p then "parent-object"
  else if containsSub "parameters".data p && containsSub "objectparameterkey".data p then
    "parameter-object"
  else if containsSub "ancestry.parents".data p then "ancestry-parent"
  else if containsSub "ancestry.children".data p then "ancestry-child"
  else "ref"

/-- One link found by the scanner: id, role and source path. -/
structure OsduLink where
  id : String
  role : String
  source_path : String
deriving DecidableEq, Repr

mutual

/-- schemahandler._walk_collect_ids on one value. Strings are tested with
_looks_like_osdu_id; dicts and lists recurse; other scalars yield nothing. -/
def walkCollectIds : Json → String → List OsduLink
  | .obj fields, base => walkFieldsIds fields base
  | .arr xs, base => walkElemsIds xs base 0
  | _, _ => []

/-- Dict case of _walk_collect_ids: sub-path base.k (or k at the root);
matching string values yield a link with the role of the sub-path. -/
def walkFieldsIds : List (String × Json) → String → List OsduLink
  | [], _ => []
  | (k, v) :: fs, base =>
    let sub := if base = "" then k else base ++ "." ++ k
    (match v with
     | .str s =>
       if _looks_like_osdu_id s then [⟨s, _role_from_path sub, sub⟩] else []
     | other => walkCollectIds other sub) ++ walkFieldsIds fs base

/-- List case of _walk_collect_ids: sub-path base[i]; matching string
values yield a link whose role comes from the base path (not the indexed
sub-path), exactly as in the source. -/
def walkElemsIds : List Json → String → Nat → List OsduLink
  | [], _, _ => []
  | v :: vs, base, i =>
    let sub := base ++ "[" ++ toString i ++ "]"
    (match v with
     | .str s =>
       if _looks_like_osdu_id s then [⟨s, _role_from_path base, sub⟩] else []
     | other => walkCollectIds other sub) ++ walkElemsIds vs base (i + 1)

end

/-- The dedup loop of schemahandler.extract_osdu_links: first-seen order,
keyed on the (id, role) pair. -/
def dedupLinksLoop (seen : List (String × String)) (out : List OsduLink) :
    List OsduLink → List OsduLink
  | [] => out
  | l :: ls =>
    if (l.id, l.role) ∈ seen then dedupLinksLoop seen out ls
    else dedupLinksLoop ((l.id, l.role) :: seen) (out ++ [l]) ls

/-- The ancestry part of extract_osdu_links: anc = data.get("ancestry") or
empty dict; matching string entries of anc.parents / anc.children yield
ancestry links. Falsy values fall back exactly as in Python; a truthy
non-dict ancestry (or non-list parents) would be iterated or would raise in
Python and cannot yield any link either way, so it is modeled as empty. -/
def ancestryLinks (fields : List (String × Json)) : List OsduLink :=
  let ancFields : List (String × Json) :=
    match getTruthy fields "ancestry" with
    | some (.obj af) => af
    | _ => []
  let parents : List Json :=
    match getTruthy ancFields "parents" with
    | some (.arr xs) => xs
    | _ => []
  let children : List Json :=
    match getTruthy ancFields "children" with
    | some (.arr xs) => xs
    | _ => []
  parents.filterMap (fun p =>
    match p with
    | .str s =>
      if _looks_like_osdu_id s then some ⟨s, "ancestry-parent", "ancestry.parents"⟩
      else none
    | _ => none)
  ++ children.filterMap (fun c =>
    match c with
    | .str s =>
      if _looks_like_osdu_id s then some ⟨s, "ancestry-child", "ancestry.children"⟩
      else none
    | _ => none)

/-- schemahandler.extract_osdu_links: ancestry links, then the generic walk
over the whole data block, deduplicated by (id, role); non-dict blocks give
the empty list. -/
def extract_osdu_links (data_block : Json) : List OsduLink :=
  match data_block with
  | .obj fields =>
    dedupLinksLoop [] [] (ancestryLinks fields ++ walkFieldsIds fields "")
  | _ => []

/-! ## Proof-support and spec-side definitions -/

/-- Recursion-friendly form of the dedup loop (no output accumulator). -/
def dedupRec (seen : List String) : List String → List String
  | [] => []
  | u :: us => if u ∈ seen then dedupRec seen us else u :: dedupRec (u :: seen) us

/-- Object-level URI grammar as the code produces it:
scheme:///dataspace(squote path squote)/typePath(id) with the id bare. -/
def objUriOfCode (path typ id : String) : String :=
  "eml:///dataspace(" ++ squots ++ path ++ squots ++ ")/" ++ typ ++ "(" ++ id ++ ")"

/-- Object-level URI grammar as claim C4 words it:
the id enclosed in single quotes inside the parentheses. -/
def objUriQuotedSpec (path typ id : String) : String :=
  "eml:///dataspace(" ++ squots ++ path ++ squots ++ ")/" ++ typ
    ++ "(" ++ squots ++ id ++ squots ++ ")"

/-- The loop invariant of the bfs traversal: queue keys are seen and
pairwise distinct and disjoint from the fetched nodes; the seen set is
duplicate-free and reachable from the seed; fetched node keys are
duplicate-free and seen. -/
def InvB (rawFetch : String → String → Except Nat Json) (seed : NodeKey)
    (q : List QEntry) (seen : List NodeKey) (nodes : List (NodeKey × Json)) : Prop :=
  (∀ e ∈ q, e.1 ∈ seen)
  ∧ seen.Nodup
  ∧ (∀ x ∈ seen, Reach rawFetch seed x)
  ∧ (q.map Prod.fst).Nodup
  ∧ (∀ e ∈ q, e.1 ∉ nodes.map Prod.fst)
  ∧ (nodes.map Prod.fst).Nodup
  ∧ (∀ x ∈ nodes.map Prod.fst, x ∈ seen)

/-! ## Lemmas on the first-seen dedup loop -/

theorem dedupSeenLoop_eq (us : List String) :
    ∀ seen out, dedupSeenLoop seen out us = out ++ dedupRec seen us := by
  induction us with
  | nil => intro seen out; simp [dedupSeenLoop, dedupRec]
  | cons u us ih =>
    intro seen out
    by_cases h : u ∈ seen
    · simp [dedupSeenLoop, dedupRec, h, ih]
    · simp [dedupSeenLoop, dedupRec, h, ih]

theorem mem_dedupRec {a : String} :
    ∀ us seen, a ∈ dedupRec seen us ↔ a ∈ us ∧ a ∉ seen := by
  intro us
  induction us with
  | nil => intro seen; simp [dedupRec]
  | cons u us ih =>
    intro seen
    by_cases h : u ∈ seen
    · simp only [dedupRec, if_pos h, ih, List.mem_cons]
      constructor
      · rintro ⟨ha, hs⟩; exact ⟨Or.inr ha, hs⟩
      · rintro ⟨ha | ha, hs⟩
        · exact absurd (ha ▸ h) hs
        · exact ⟨ha, hs⟩
    · simp only [dedupRec, if_neg h, List.mem_cons, ih]
      constructor
      · rintro (rfl | ⟨ha, hs⟩)
        · exact ⟨Or.inl rfl, h⟩
        · exact ⟨Or.inr ha, fun hc => hs (Or.inr hc)⟩
      · rintro ⟨rfl | ha, hs⟩
        · exact Or.inl rfl
        · by_cases hau : a = u
          · exact Or.inl hau
          · exact Or.inr ⟨ha, fun hc => hc.elim hau hs⟩

theorem nodup_dedupRec : ∀ (us seen : List String), (dedupRec seen us).Nodup := by
  intro us
  induction us with
  | nil => intro seen; simp [dedupRec]
  | cons u us ih =>
    intro seen
    by_cases h : u ∈ seen
    · simpa [dedupRec, h] using ih seen
    · simp only [dedupRec, if_neg h]
      refine List.Nodup.cons ?_ (ih (u :: seen))
      intro hc
      exact ((mem_dedupRec us (u :: seen)).mp hc).2 (List.mem_cons_self u seen)

theorem pairwise_indexOf_dedupRec :
    ∀ (us seen : List String),
      List.Pairwise (fun a b => us.indexOf a < us.indexOf b) (dedupRec seen us) := by
  intro us
  induction us with
  | nil => intro seen; simp [dedupRec]
  | cons u us ih =>
    intro seen
    by_cases h : u ∈ seen
    · simp only [dedupRec, if_pos h]
      refine List.Pairwise.imp_of_mem ?_ (ih seen)
      intro a b ha hb hlt
      have hmema := (mem_dedupRec us seen).mp ha
      have hmemb := (mem_dedupRec us seen).mp hb
      have hau : a ≠ u := fun hc => hmema.2 (hc ▸ h)
      have hbu : b ≠ u := fun hc => hmemb.2 (hc ▸ h)
      rw [List.indexOf_cons_ne _ (Ne.symm hau), List.indexOf_cons_ne _ (Ne.symm hbu)]
      omega
    · simp only [dedupRec, if_neg h]
      refine List.Pairwise.cons ?_ ?_
      · intro b hb
        have hmemb := (mem_dedupRec us (u :: seen)).mp hb
        have hbu : b ≠ u := fun hc => hmemb.2 (hc ▸ List.mem_cons_self u seen)
        rw [List.indexOf_cons_self, List.indexOf_cons_ne _ (Ne.symm hbu)]
        omega
      · refine List.Pairwise.imp_of_mem ?_ (ih (u :: seen))
        intro a b ha hb hlt
        have hmema := (mem_dedupRec us (u :: seen)).mp ha
        have hmemb := (mem_dedupRec us (u :: seen)).mp hb
        have hau : a ≠ u := fun hc => hmema.2 (hc ▸ List.mem_cons_self u seen)
        have hbu : b ≠ u := fun hc => hmemb.2 (hc ▸ List.mem_cons_self u seen)
        rw [List.indexOf_cons_ne _ (Ne.symm hau), List.indexOf_cons_ne _ (Ne.symm hbu)]
        omega

theorem dedupRec_of_nodup :
    ∀ (us seen : List String), us.Nodup → (∀ a ∈ us, a ∉ seen) → dedupRec seen us = us := by
  intro us
  induction us with
  | nil => intro seen _ _; simp [dedupRec]
  | cons u us ih =>
    intro seen hnd hdisj
    have hu : u ∉ seen := hdisj u (List.mem_cons_self u us)
    simp only [dedupRec, if_neg hu]
    congr 1
    refine ih (u :: seen) (List.Nodup.of_cons hnd) ?_
    intro a ha hc
    rcases List.mem_cons.mp hc with h1 | h1
    · exact (List.nodup_cons.mp hnd).1 (h1 ▸ ha)
    · exact hdisj a (List.mem_cons_of_mem _ ha) h1

theorem unique_preserve_order_eq (l : List String) :
    unique_preserve_order l = dedupRec [] l := by
  simpa using dedupSeenLoop_eq l [] []

/-- C7: the dedup of gather_selected_uris_with_refs is idempotent and
order-preserving: the output contains each distinct URI exactly once, in
the order of its first occurrence in the input (first-occurrence indices
are strictly increasing along the output), and re-applying it to its own
output returns that output unchanged. -/
theorem c7_dedup_idempotent_and_order (l : List String) :
    (unique_preserve_order l).Nodup
    ∧ (∀ u, u ∈ unique_preserve_order l ↔ u ∈ l)
    ∧ List.Pairwise (fun a b => l.indexOf a < l.indexOf b) (unique_preserve_order l)
    ∧ unique_preserve_order (unique_preserve_order l) = unique_preserve_order l := by
  rw [unique_preserve_order_eq]
  refine ⟨nodup_dedupRec l [], ?_, pairwise_indexOf_dedupRec l [], ?_⟩
  · intro u
    rw [mem_dedupRec]
    simp
  · rw [unique_preserve_order_eq, dedupRec_of_nodup _ _ (nodup_dedupRec l []) (by simp)]

/-- Witness for C7 at a concrete input with a duplicate. -/
theorem c7_witness :
    (unique_preserve_order ["a", "b", "a"]).Nodup
    ∧ unique_preserve_order (unique_preserve_order ["a", "b", "a"])
        = unique_preserve_order ["a", "b", "a"] :=
  ⟨(c7_dedup_idempotent_and_order ["a", "b", "a"]).1,
   (c7_dedup_idempotent_and_order ["a", "b", "a"]).2.2.2⟩

/-! ## Lemmas on pySplit with the type= separator -/

theorem not_tyEq_prefixOf_append :
    ∀ (a b : List Char), a ≠ [] → containsSub tyEq a = false →
      tyEq.isPrefixOf (a ++ (tyEq ++ b)) = false := by
  intro a b hne hnc
  match a with
  | [] => exact absurd rfl hne
  | [c1] => simp [tyEq, List.isPrefixOf]
  | [c1, c2] => simp [tyEq, List.isPrefixOf]
  | [c1, c2, c3] => simp [tyEq, List.isPrefixOf]
  | [c1, c2, c3, c4] => simp [tyEq, List.isPrefixOf]
  | c1 :: c2 :: c3 :: c4 :: c5 :: rest =>
    have h1 : tyEq.isPrefixOf (c1 :: c2 :: c3 :: c4 :: c5 :: rest) = false := by
      have h2 := hnc
      simp only [containsSub, Bool.or_eq_false_iff] at h2
      exact h2.1
    simp only [tyEq, List.isPrefixOf, List.cons_append] at h1 ⊢
    simpa using h1

theorem pySplit_tyEq_append (b : List Char) :
    ∀ a, containsSub tyEq a = false →
      pySplit tyEq (a ++ (tyEq ++ b)) = a :: pySplit tyEq b := by
  intro a
  induction a with
  | nil =>
    intro _
    simp [pySplit, tyEq, List.isPrefixOf]
  | cons c a ih =>
    intro h
    have hsub : containsSub tyEq a = false := by
      simp only [containsSub, Bool.or_eq_false_iff] at h
      exact h.2
    have hns := not_tyEq_prefixOf_append (c :: a) b (by simp) h
    have hcond : ¬(tyEq ≠ [] ∧ tyEq.isPrefixOf (c :: (a ++ (tyEq ++ b))) = true) := by
      rintro ⟨h1, hp⟩
      rw [show (c :: (a ++ (tyEq ++ b))) = (c :: a) ++ (tyEq ++ b) by simp] at hp
      rw [hns] at hp
      exact Bool.false_ne_true hp
    simp only [List.cons_append]
    rw [pySplit.eq_def]
    simp only []
    rw [dif_neg hcond]
    rw [ih hsub]

theorem pySplit_tyEq_of_not_contains :
    ∀ s, containsSub tyEq s = false → pySplit tyEq s = [s] := by
  intro s
  induction s with
  | nil => intro _; simp [pySplit]
  | cons c s ih =>
    intro h
    have hsub : containsSub tyEq s = false := by
      simp only [containsSub, Bool.or_eq_false_iff] at h
      exact h.2
    have hp : tyEq.isPrefixOf (c :: s) = false := by
      simp only [containsSub, Bool.or_eq_false_iff] at h
      exact h.1
    have hcond : ¬(tyEq ≠ [] ∧ tyEq.isPrefixOf (c :: s) = true) := by
      rintro ⟨h1, hpp⟩
      rw [hp] at hpp
      exact Bool.false_ne_true hpp
    rw [pySplit.eq_def]
    simp only []
    rw [dif_neg hcond]
    rw [ih hsub]

theorem gatherLoop_ok_of_total (fetch : String → String → Except Nat Json)
    (ds : String) (ir : Bool) (htot : ∀ t u, ∃ j, fetch t u = Except.ok j) :
    ∀ sels, ∃ out, gatherLoop fetch ds ir sels = Except.ok out := by
  intro sels
  induction sels with
  | nil => exact ⟨[], rfl⟩
  | cons p rest ih =>
    obtain ⟨t, u⟩ := p
    obtain ⟨j, hj⟩ := htot t u
    obtain ⟨out, hout⟩ := ih
    cases ir with
    | true =>
      exact ⟨selection_uri ds t u
          :: ((extract_refs j).filterMap (fun r => uri_from_ref ds r.contentType r.uuid) ++ out),
        by simp [gatherLoop, hj, hout]⟩
    | false => exact ⟨selection_uri ds t u :: out, by simp [gatherLoop, hout]⟩

/-- C5: for a content-type string whose first type= segment carries
obj_Suffix (already stripped, with no further type= marker), the inferred
type path is resqml20.obj_Suffix; without any type= segment the inference
returns none; an empty id or a failed inference makes uri_from_ref return
none; and with every fetch succeeding, the gather call never fails (a
skipped reference never aborts the traversal). -/
theorem c5_type_inference_and_skip :
    (∀ pre body : List Char,
      containsSub tyEq pre = false →
      containsSub tyEq body = false →
      pyStrip body = body →
      objMark.isPrefixOf body = true →
      typeFromCTCore (pre ++ (tyEq ++ body)) = some (resqml20Dot ++ body))
    ∧ (∀ ct : List Char, containsSub tyEq ct = false → typeFromCTCore ct = none)
    ∧ (∀ ds ct : String, uri_from_ref ds ct "" = none)
    ∧ (∀ ds ct u : String, _type_from_content_type ct = none → uri_from_ref ds ct u = none)
    ∧ (∀ (fetch : String → String → Except Nat Json) (ds : String)
        (sels : List (String × String)) (ir : Bool),
        (∀ t u, ∃ j, fetch t u = Except.ok j) →
        ∃ out, gather_selected_uris_with_refs fetch ds sels ir = Except.ok out) := by
  refine ⟨?_, ?_, ?_, ?_, ?_⟩
  · intro pre body h1 h2 h3 h4
    have hne : pre ++ (tyEq ++ body) ≠ [] := by simp [tyEq]
    rw [typeFromCTCore, if_neg hne, pySplit_tyEq_append body pre h1,
        pySplit_tyEq_of_not_contains body h2]
    simp [h3, h4]
  · intro ct h
    by_cases hct : ct = []
    · simp [typeFromCTCore, hct]
    · rw [typeFromCTCore, if_neg hct, pySplit_tyEq_of_not_contains ct h]
  · intro ds ct
    cases h : _type_from_content_type ct with
    | none => simp [uri_from_ref, h]
    | some typ => simp [uri_from_ref, h]
  · intro ds ct u h
    simp [uri_from_ref, h]
  · intro fetch ds sels ir htot
    obtain ⟨out, hout⟩ := gatherLoop_ok_of_total fetch ds ir htot sels
    exact ⟨unique_preserve_order out, by simp [gather_selected_uris_with_refs, hout, Except.map]⟩

/-- Witness for C5 at a realistic content type. -/
theorem c5_witness :
    containsSub tyEq "application/x-resqml+xml;version=2.0;".data = false
    ∧ containsSub tyEq "obj_LocalDepth3dCrs".data = false
    ∧ pyStrip "obj_LocalDepth3dCrs".data = "obj_LocalDepth3dCrs".data
    ∧ objMark.isPrefixOf "obj_LocalDepth3dCrs".data = true
    ∧ typeFromCTCore ("application/x-resqml+xml;version=2.0;".data
        ++ (tyEq ++ "obj_LocalDepth3dCrs".data))
      = some (resqml20Dot ++ "obj_LocalDepth3dCrs".data)
    ∧ uri_from_ref "demo/Volve" "nosegment" "C1" = none :=
  ⟨by decide, by decide, by decide, by decide,
   c5_type_inference_and_skip.1 _ _ (by decide) (by decide) (by decide) (by decide),
   c5_type_inference_and_skip.2.2.2.1 "demo/Volve" "nosegment" "C1" (by
     have := c5_type_inference_and_skip.2.1 "nosegment".data (by decide)
     simp [_type_from_content_type, this])⟩

/-- C4 counterexample: the code builds object-level URIs with the id bare
inside the parentheses, not single-quoted as the claim states. At a concrete
reference the produced URI differs from the quoted grammar and contains no
quoted id substring. -/
theorem c4_counterexample :
    uri_from_ref "d" "a;type=obj_X" "u1" = some (objUriOfCode "d" "resqml20.obj_X" "u1")
    ∧ objUriOfCode "d" "resqml20.obj_X" "u1" ≠ objUriQuotedSpec "d" "resqml20.obj_X" "u1"
    ∧ containsSub [squot, 'u', '1', squot] (objUriOfCode "d" "resqml20.obj_X" "u1").data
        = false := by
  have h1 : _type_from_content_type "a;type=obj_X" = some "resqml20.obj_X" := by
    simp [_type_from_content_type, typeFromCTCore, pySplit, pyStrip, tyEq, objMark, resqml20Dot]
  refine ⟨?_, by decide, by decide⟩
  simp [uri_from_ref, h1, objUriOfCode]

/-- C4 amended: every object-level URI the engine produces (for a normalized
reference via uri_from_ref, or for a seed via the inline f-string) follows
scheme:///dataspace(squote path squote)/typePath(id) with the id bare inside
the parentheses, and every dataspace-level URI follows
scheme:///dataspace(squote path squote). -/
theorem c4_uri_grammar_amended :
    (∀ ds ct u typ, _type_from_content_type ct = some typ → u ≠ "" →
      uri_from_ref ds ct u = some (objUriOfCode ds typ u))
    ∧ (∀ ds t u, selection_uri ds t u = objUriOfCode ds t u)
    ∧ (∀ ds, _dataspace_uri ds = "eml:///dataspace(" ++ squots ++ ds ++ squots ++ ")") := by
  refine ⟨?_, ?_, ?_⟩
  · intro ds ct u typ h hu
    simp [uri_from_ref, h, hu, objUriOfCode]
  · intro ds t u
    rfl
  · intro ds
    rfl

/-- Witness for the amended C4 at a concrete reference. -/
theorem c4_witness :
    _type_from_content_type "a;type=obj_Grid2dRepresentation"
        = some "resqml20.obj_Grid2dRepresentation"
    ∧ ("G1" : String) ≠ ""
    ∧ uri_from_ref "demo/Volve" "a;type=obj_Grid2dRepresentation" "G1"
        = some (objUriOfCode "demo/Volve" "resqml20.obj_Grid2dRepresentation" "G1") := by
  have h1 : _type_from_content_type "a;type=obj_Grid2dRepresentation"
      = some "resqml20.obj_Grid2dRepresentation" := by
    simp [_type_from_content_type, typeFromCTCore, pySplit, pyStrip, tyEq, objMark, resqml20Dot]
  exact ⟨h1, by decide, c4_uri_grammar_amended.1 "demo/Volve" _ "G1" _ h1 (by decide)⟩

theorem gatherLoop_mem_selection (fetch : String → String → Except Nat Json)
    (ds : String) (ir : Bool) :
    ∀ sels out, gatherLoop fetch ds ir sels = Except.ok out →
      ∀ t u, (t, u) ∈ sels → selection_uri ds t u ∈ out := by
  intro sels
  induction sels with
  | nil => intro out _ t u hmem; simp at hmem
  | cons p rest ih =>
    obtain ⟨t0, u0⟩ := p
    intro out hout t u hmem
    cases ir with
    | true =>
      simp only [gatherLoop] at hout
      rw [if_pos trivial] at hout
      cases hf : fetch t0 u0 with
      | error e => rw [hf] at hout; simp at hout
      | ok j =>
        rw [hf] at hout
        cases hr : gatherLoop fetch ds true rest with
        | error e => rw [hr] at hout; simp at hout
        | ok tail =>
          rw [hr] at hout
          simp only [Except.ok.injEq] at hout
          subst hout
          rcases List.mem_cons.mp hmem with heq | hmem2
          · obtain ⟨rfl, rfl⟩ := Prod.mk.injEq .. ▸ heq
            simp
          · have := ih tail hr t u hmem2
            simp [this]
    | false =>
      simp only [gatherLoop] at hout
      rw [if_neg Bool.false_ne_true] at hout
      cases hr : gatherLoop fetch ds false rest with
      | error e => rw [hr] at hout; simp at hout
      | ok tail =>
        rw [hr] at hout
        simp only [Except.ok.injEq] at hout
        subst hout
        rcases List.mem_cons.mp hmem with heq | hmem2
        · obtain ⟨rfl, rfl⟩ := Prod.mk.injEq .. ▸ heq
          simp
        · have := ih tail hr t u hmem2
          simp [this]

/-- C3: each selected seed contributes its own canonical URI to the result
of every successful gather call regardless of include_refs; and resolving a
single seed with include_refs = false returns exactly that one URI, for
every fetch oracle (no fetch of the referenced objects is needed). -/
theorem c3_seed_uri_always_included :
    (∀ (fetch : String → String → Except Nat Json) (ds t u : String),
      gather_selected_uris_with_refs fetch ds [(t, u)] false
        = Except.ok [selection_uri ds t u])
    ∧ (∀ (fetch : String → String → Except Nat Json) (ds : String)
        (sels : List (String × String)) (ir : Bool) (out : List String),
        gather_selected_uris_with_refs fetch ds sels ir = Except.ok out →
        ∀ t u, (t, u) ∈ sels → selection_uri ds t u ∈ out) := by
  constructor
  · intro fetch ds t u
    simp [gather_selected_uris_with_refs, gatherLoop, unique_preserve_order,
      dedupSeenLoop, Except.map]
  · intro fetch ds sels ir out hout t u hmem
    cases hl : gatherLoop fetch ds ir sels with
    | error e =>
      rw [gather_selected_uris_with_refs, hl] at hout
      simp [Except.map] at hout
    | ok l =>
      rw [gather_selected_uris_with_refs, hl] at hout
      simp only [Except.map, Except.ok.injEq] at hout
      subst hout
      have hm := gatherLoop_mem_selection fetch ds ir sels l hl t u hmem
      rw [unique_preserve_order_eq]
      exact (mem_dedupRec l []).mpr ⟨hm, by simp⟩

/-- Witness for C3 at a single concrete seed with a failing oracle:
include_refs = false never fetches, so even an always-erroring oracle
returns exactly the seed URI, which is a member of the result. -/
theorem c3_witness :
    gather_selected_uris_with_refs (fun _ _ => Except.error 500) "demo/Volve"
        [("resqml20.obj_Grid2dRepresentation", "G1")] false
      = Except.ok [selection_uri "demo/Volve" "resqml20.obj_Grid2dRepresentation" "G1"]
    ∧ selection_uri "demo/Volve" "resqml20.obj_Grid2dRepresentation" "G1"
        ∈ [selection_uri "demo/Volve" "resqml20.obj_Grid2dRepresentation" "G1"] :=
  ⟨c3_seed_uri_always_included.1 _ "demo/Volve" "resqml20.obj_Grid2dRepresentation" "G1",
   c3_seed_uri_always_included.2 (fun _ _ => Except.error 500) "demo/Volve"
     [("resqml20.obj_Grid2dRepresentation", "G1")] false _
     (c3_seed_uri_always_included.1 _ "demo/Volve" "resqml20.obj_Grid2dRepresentation" "G1")
     "resqml20.obj_Grid2dRepresentation" "G1" (by simp)⟩

theorem extract_refs_graph_stub (t u : String) (e : Nat) :
    _extract_refs_graph (stubObj t u e) = ([], []) := by
  simp [stubObj, _extract_refs_graph, graphWalk, graphWalkFields, dorEdgeGraph,
    hasKey, dedupEdgesLoop]

/-- C1 counterexample: the claim says a 404 per-node fetch error never
aborts the call, but gather_selected_uris_with_refs propagates it as a hard
failure of the whole call at this concrete input (404 is not a credential
status). -/
theorem c1_counterexample :
    gather_selected_uris_with_refs (fun _ _ => Except.error 404) "d" [("t", "u")] true
      = Except.error 404
    ∧ (404 : Nat) ≠ 401 ∧ (404 : Nat) ≠ 403 :=
  ⟨rfl, by decide, by decide⟩

/-- C1 amended: the code draws no credential distinction. In
gather_selected_uris_with_refs every per-node fetch error (404, 401, 403 or
5xx alike) propagates as a hard failure of the whole call; in the bfs loop
every HTTP status error is caught, the failed node contributes a stub with
empty edge lists, and the traversal continues and returns the seed (and
every other fetched node) normally, never raising for any HTTP status. -/
theorem c1_error_policy_amended :
    (∀ (e : Nat) (fetch : String → String → Except Nat Json) (ds t u : String)
        (rest : List (String × String)),
      fetch t u = Except.error e →
      gather_selected_uris_with_refs fetch ds ((t, u) :: rest) true = Except.error e)
    ∧ (∀ (e D : Nat) (t u : String),
      bfsAux (fun _ _ => Except.error e) D 1 [((t, u), 0)] [(t, u)] []
        = some ([(t, u)], [((t, u), Json.str "")])) := by
  constructor
  · intro e fetch ds t u rest hf
    simp [gather_selected_uris_with_refs, gatherLoop, hf, Except.map]
  · intro e D t u
    simp [bfsAux, fetchNode, _get_resource, extract_refs_graph_stub,
      stubObj, titleOf, pyGet, enqueueTargets]

/-- Witness for the amended C1: a 401 aborts gather, while bfs absorbs a 403
and still returns the seed. -/
theorem c1_witness :
    gather_selected_uris_with_refs (fun _ _ => Except.error 401) "d" [("t", "u")] true
      = Except.error 401
    ∧ bfsAux (fun _ _ => Except.error 403) 2 1 [(("t", "u"), 0)] [("t", "u")] []
      = some ([("t", "u")], [(("t", "u"), Json.str "")]) :=
  ⟨c1_error_policy_amended.1 401 _ "d" "t" "u" [] rfl,
   c1_error_policy_amended.2 403 2 "t" "u"⟩

/-- C8: when zero object URIs are collected (no truthy explicit URIs and an
empty all-resources listing), the assembled body carries exactly the one
dataspace-level URI; and the uris field of the body is never empty. -/
theorem c8_manifest_never_empty :
    (∀ (path : String) (lt : Option String) (ow vw co : Option (List String))
        (cmr use_all : Bool) (explicit : Option (List String)) (allRows : List Json),
      (explicit = none ∨ explicit = some []) →
      list_all_resource_uris allRows = [] →
      (build_manifest_body path lt ow vw co cmr use_all explicit allRows).uris
        = [_dataspace_uri path])
    ∧ (∀ (path : String) (lt : Option String) (ow vw co : Option (List String))
        (cmr use_all : Bool) (explicit : Option (List String)) (allRows : List Json),
      (build_manifest_body path lt ow vw co cmr use_all explicit allRows).uris ≠ []) := by
  constructor
  · intro path lt ow vw co cmr use_all explicit allRows hexp hall
    rcases hexp with rfl | rfl <;>
      cases use_all <;> simp [build_manifest_body, hall]
  · intro path lt ow vw co cmr use_all explicit allRows
    rcases explicit with _ | l
    · cases use_all <;> simp [build_manifest_body] <;>
        by_cases hall : list_all_resource_uris allRows = [] <;> simp [hall]
    · by_cases hl : l = []
      · subst hl
        cases use_all <;> simp [build_manifest_body] <;>
          by_cases hall : list_all_resource_uris allRows = [] <;> simp [hall]
      · simp [build_manifest_body, hl]

/-- Witness for C8: no explicit URIs, all-resources listing empty. -/
theorem c8_witness :
    (build_manifest_body "demo/Volve" none none none none true true none []).uris
      = [_dataspace_uri "demo/Volve"]
    ∧ (build_manifest_body "demo/Volve" none none none none true true none []).uris ≠ [] :=
  ⟨c8_manifest_never_empty.1 "demo/Volve" none none none none true true none []
      (Or.inl rfl) rfl,
   c8_manifest_never_empty.2 "demo/Volve" none none none none true true none []⟩

/-- C9: every string containing the reference-data-- segment is rejected by
the identifier test, and scanning a block whose only candidate identifier is
a reference-data id returns the empty list. -/
theorem c9_reference_data_never_returned :
    (∀ s : String, containsSub refDataMark s.data = true → _looks_like_osdu_id s = false)
    ∧ extract_osdu_links (Json.obj [("x", Json.str "dp:reference-data--Kind:abc:1")]) = [] := by
  constructor
  · intro s h
    simp [_looks_like_osdu_id, h]
  · have h : _looks_like_osdu_id "dp:reference-data--Kind:abc:1" = false := by decide
    simp [extract_osdu_links, ancestryLinks, getTruthy, pyGet, walkFieldsIds,
      walkCollectIds, dedupLinksLoop, h]

/-- Witness for C9 at the concrete reference-data id. -/
theorem c9_witness :
    _looks_like_osdu_id "dp:reference-data--Kind:abc:1" = false :=
  c9_reference_data_never_returned.1 "dp:reference-data--Kind:abc:1" (by decide)

/-- C6 counterexample: at a list response carrying a non-matching entry
first and the entry with the requested id u1 second, resqml_graph
_get_resource normalization selects the first entry (id other, not u1); and
at a list whose first entry is not a dict it returns that non-dict entry, so
no id matching and no dict filtering happens there. -/
theorem c6_counterexample :
    normalizeGetResource (Json.arr
        [Json.obj [("Uuid", Json.str "other")], Json.obj [("Uuid", Json.str "u1")]])
      = Json.obj [("Uuid", Json.str "other")]
    ∧ normalizeGetResource (Json.arr [Json.str "junk", Json.obj [("Uuid", Json.str "u1")]])
      = Json.str "junk"
    ∧ ("other" : String) ≠ "u1" :=
  ⟨rfl, rfl, by decide⟩

/-- C6 amended: resqml_graph._get_resource returns the first entry of a
non-empty list response unconditionally (no id matching, no dict
filtering), the empty list value itself for an empty list, and any non-list
response unchanged; main.keys_object, when the object is a list, selects
the first dict entry (or the empty dict when the list is empty or has no
dict entry) so its normalized list result is always a dict, and a non-dict
normalized object yields empty edges. -/
theorem c6_response_shape_amended :
    (∀ (x : Json) (xs : List Json), normalizeGetResource (Json.arr (x :: xs)) = x)
    ∧ normalizeGetResource (Json.arr []) = Json.arr []
    ∧ (∀ j : Json, (∀ ys, j ≠ Json.arr ys) → normalizeGetResource j = j)
    ∧ (∀ xs : List Json, ∃ f, keys_object_normalize (Json.arr xs) = Json.obj f)
    ∧ (∀ xs : List Json, xs ≠ [] →
        keys_object_normalize (Json.arr xs) = (xs.find? isDictJson).getD (Json.obj []))
    ∧ (∀ j : Json, isDictJson (keys_object_normalize j) = false → keys_object_edges j = []) := by
  refine ⟨?_, rfl, ?_, ?_, ?_, ?_⟩
  · intro x xs
    rfl
  · intro j hj
    cases j with
    | arr ys => exact absurd rfl (hj ys)
    | null => rfl
    | bool b => rfl
    | num n => rfl
    | str s => rfl
    | obj f => rfl
  · intro xs
    by_cases hxs : xs.isEmpty
    · exact ⟨[], by simp [keys_object_normalize, hxs]⟩
    · cases hf : xs.find? isDictJson with
      | none => exact ⟨[], by simp [keys_object_normalize, hxs, hf]⟩
      | some d =>
        have hd : isDictJson d = true := List.find?_some hf
        cases d with
        | obj f => exact ⟨f, by simp [keys_object_normalize, hxs, hf]⟩
        | null => simp [isDictJson] at hd
        | bool b => simp [isDictJson] at hd
        | num n => simp [isDictJson] at hd
        | str s => simp [isDictJson] at hd
        | arr ys => simp [isDictJson] at hd
  · intro xs hxs
    have hne : xs.isEmpty = false := by simpa using hxs
    cases hf : xs.find? isDictJson with
    | none => simp [keys_object_normalize, hne, hf]
    | some d => simp [keys_object_normalize, hne, hf]
  · intro j hj
    simp [keys_object_edges, hj]

/-- Witness for the amended C6 at concrete list responses. -/
theorem c6_witness :
    normalizeGetResource (Json.arr [Json.str "junk"]) = Json.str "junk"
    ∧ (∃ f, keys_object_normalize (Json.arr [Json.str "junk"]) = Json.obj f)
    ∧ keys_object_normalize (Json.arr [Json.str "junk", Json.obj [("a", Json.null)]])
        = ((([Json.str "junk", Json.obj [("a", Json.null)]]).find? isDictJson).getD (Json.obj [])) :=
  ⟨c6_response_shape_amended.1 (Json.str "junk") [],
   c6_response_shape_amended.2.2.2.1 [Json.str "junk"],
   c6_response_shape_amended.2.2.2.2.1 [Json.str "junk", Json.obj [("a", Json.null)]]
     (by simp)⟩

/-! ## BFS traversal lemmas (claim C2) -/

theorem enqueueTargets_spec (D d : Nat) :
    ∀ (ts : List RefEdge) (q : List QEntry) (s : List NodeKey),
      ∃ ks : List NodeKey,
        enqueueTargets D d ts q s
          = (q ++ ks.map (fun k => (k, d + 1)), ks.reverse ++ s)
        ∧ ks.Nodup
        ∧ (∀ k ∈ ks, k ∉ s)
        ∧ (∀ k ∈ ks, k ∈ ts.map targetKeyOf)
        ∧ (¬ d < D → ks = []) := by
  intro ts
  induction ts with
  | nil =>
    intro q s
    exact ⟨[], by simp [enqueueTargets], by simp, by simp, by simp, fun _ => rfl⟩
  | cons t ts ih =>
    intro q s
    by_cases hcond : d < D ∧ targetKeyOf t ∉ s
    · obtain ⟨ks, heq, hnd, hns, hmem, _⟩ :=
        ih (q ++ [(targetKeyOf t, d + 1)]) (targetKeyOf t :: s)
      refine ⟨targetKeyOf t :: ks, ?_, ?_, ?_, ?_, ?_⟩
      · rw [enqueueTargets, if_pos hcond, heq]
        simp
      · exact List.Nodup.cons
          (fun hc => (hns _ hc) (List.mem_cons_self _ _)) hnd
      · intro k hk
        rcases List.mem_cons.mp hk with rfl | hk2
        · exact hcond.2
        · exact fun hc => hns k hk2 (List.mem_cons_of_mem _ hc)
      · intro k hk
        rcases List.mem_cons.mp hk with rfl | hk2
        · simp
        · have := hmem k hk2
          simp only [List.map_cons, List.mem_cons]
          exact Or.inr this
      · intro hnd2
        exact absurd hcond.1 hnd2
    · obtain ⟨ks, heq, hnd, hns, hmem, hno⟩ := ih q s
      refine ⟨ks, ?_, hnd, hns, ?_, fun h => hno h⟩
      · rw [enqueueTargets, if_neg hcond, heq]
      · intro k hk
        have := hmem k hk
        simp only [List.map_cons, List.mem_cons]
        exact Or.inr this

theorem enqueueTargets_no_op (D d : Nat) (ts : List RefEdge)
    (q : List QEntry) (s : List NodeKey) (hd : ¬ d < D) :
    enqueueTargets D d ts q s = (q, s) := by
  obtain ⟨ks, heq, _, _, _, hno⟩ := enqueueTargets_spec D d ts q s
  rw [heq, hno hd]
  simp

theorem bfsAux_term_high (rf : String → String → Except Nat Json) (D : Nat) :
    ∀ (q : List QEntry) (seen : List NodeKey) (nodes : List (NodeKey × Json)),
      (∀ e ∈ q, D ≤ e.2) →
      ∃ r, bfsAux rf D q.length q seen nodes = some r := by
  intro q
  induction q with
  | nil => intro seen nodes _; exact ⟨(seen, nodes), rfl⟩
  | cons e rest ih =>
    obtain ⟨k, d⟩ := e
    intro seen nodes hdep
    have hd : D ≤ d := hdep (k, d) (List.mem_cons_self _ _)
    have hnop : enqueueTargets D d ((_extract_refs_graph (fetchNode rf k)).1) rest seen
        = (rest, seen) :=
      enqueueTargets_no_op D d _ rest seen (Nat.not_lt.mpr hd)
    obtain ⟨r, hr⟩ := ih seen (nodes ++ [(k, titleOf (fetchNode rf k))])
      (fun e he => hdep e (List.mem_cons_of_mem _ he))
    refine ⟨r, ?_⟩
    simp only [List.length_cons, bfsAux, hnop]
    exact hr

theorem bfsAux_term_level (rf : String → String → Except Nat Json) (D : Nat) :
    ∀ (k d : Nat) (A B : List QEntry) (seen : List NodeKey)
      (nodes : List (NodeKey × Json)),
      D ≤ d + k →
      (∀ e ∈ A, e.2 = d) →
      (∀ e ∈ B, e.2 = d + 1) →
      ∃ fuel r, bfsAux rf D fuel (A ++ B) seen nodes = some r := by
  intro k
  induction k with
  | zero =>
    intro d A B seen nodes hk hA hB
    have hall : ∀ e ∈ A ++ B, D ≤ e.2 := by
      intro e he
      rcases List.mem_append.mp he with h | h
      · rw [hA e h]; omega
      · rw [hB e h]; omega
    obtain ⟨r, hr⟩ := bfsAux_term_high rf D (A ++ B) seen nodes hall
    exact ⟨(A ++ B).length, r, hr⟩
  | succ k ihk =>
    intro d A B seen nodes hk hA hB
    by_cases hD : D ≤ d
    · have hall : ∀ e ∈ A ++ B, D ≤ e.2 := by
        intro e he
        rcases List.mem_append.mp he with h | h
        · rw [hA e h]; omega
        · rw [hB e h]; omega
      obtain ⟨r, hr⟩ := bfsAux_term_high rf D (A ++ B) seen nodes hall
      exact ⟨(A ++ B).length, r, hr⟩
    · induction A generalizing B seen nodes with
      | nil =>
        simp only [List.nil_append]
        have := ihk (d + 1) B [] seen nodes (by omega) hB (by intro e he; simp at he)
        simpa using this
      | cons e A ihA =>
        obtain ⟨kk, dd⟩ := e
        have hdd : dd = d := hA (kk, dd) (List.mem_cons_self _ _)
        subst hdd
        obtain ⟨ks, heq, _, _, _, _⟩ :=
          enqueueTargets_spec D dd ((_extract_refs_graph (fetchNode rf kk)).1) (A ++ B) seen
        have hA2 : ∀ e ∈ A, e.2 = dd := fun e he => hA e (List.mem_cons_of_mem _ he)
        have hB2 : ∀ e ∈ B ++ ks.map (fun kx => (kx, dd + 1)), e.2 = dd + 1 := by
          intro e he
          rcases List.mem_append.mp he with h | h
          · exact hB e h
          · obtain ⟨kx, _, rfl⟩ := List.mem_map.mp h
            rfl
        obtain ⟨fuel, r, hr⟩ :=
          ihA (B ++ ks.map (fun kx => (kx, dd + 1))) (ks.reverse ++ seen)
            (nodes ++ [(kk, titleOf (fetchNode rf kk))]) hA2 hB2
        refine ⟨fuel + 1, r, ?_⟩
        simp only [List.cons_append, bfsAux, List.append_eq]
        rw [heq]
        rw [← List.append_assoc] at hr
        exact hr

theorem InvB_preserved (rf : String → String → Except Nat Json) (seed : NodeKey)
    (D d : Nat) (k : NodeKey) (rest : List QEntry) (seen : List NodeKey)
    (nodes : List (NodeKey × Json))
    (hinv : InvB rf seed ((k, d) :: rest) seen nodes) :
    InvB rf seed
      (enqueueTargets D d ((_extract_refs_graph (fetchNode rf k)).1) rest seen).1
      (enqueueTargets D d ((_extract_refs_graph (fetchNode rf k)).1) rest seen).2
      (nodes ++ [(k, titleOf (fetchNode rf k))]) := by
  obtain ⟨h1, h2, h3, h4, h5, h6, h7⟩ := hinv
  have hkseen : k ∈ seen := h1 (k, d) (List.mem_cons_self _ _)
  have hkreach : Reach rf seed k := h3 k hkseen
  have hrest1 : ∀ e ∈ rest, e.1 ∈ seen := fun e he => h1 e (List.mem_cons_of_mem _ he)
  have hrest4 : (rest.map Prod.fst).Nodup := (List.nodup_cons.mp (by simpa using h4)).2
  have hknotrest : k ∉ rest.map Prod.fst := (List.nodup_cons.mp (by simpa using h4)).1
  have hrest5 : ∀ e ∈ rest, e.1 ∉ nodes.map Prod.fst :=
    fun e he => h5 e (List.mem_cons_of_mem _ he)
  have hknotnodes : k ∉ nodes.map Prod.fst := h5 (k, d) (List.mem_cons_self _ _)
  obtain ⟨ks, heq, hnd, hns, hmem, _⟩ :=
    enqueueTargets_spec D d ((_extract_refs_graph (fetchNode rf k)).1) rest seen
  rw [heq]
  have hksreach : ∀ x ∈ ks, Reach rf seed x := by
    intro x hx
    exact Reach.step hkreach (hmem x hx)
  refine ⟨?_, ?_, ?_, ?_, ?_, ?_, ?_⟩
  · intro e he
    rcases List.mem_append.mp he with h | h
    · exact List.mem_append_right _ (hrest1 e h)
    · obtain ⟨kx, hkx, rfl⟩ := List.mem_map.mp h
      exact List.mem_append_left _ (List.mem_reverse.mpr hkx)
  · refine List.Nodup.append (List.nodup_reverse.mpr hnd) h2 ?_
    intro x hx
    exact hns x (List.mem_reverse.mp hx)
  · intro x hx
    rcases List.mem_append.mp hx with h | h
    · exact hksreach x (List.mem_reverse.mp h)
    · exact h3 x h
  · rw [List.map_append]
    have hmapks : (ks.map (fun kx : NodeKey => (kx, d + 1))).map Prod.fst = ks := by
      rw [List.map_map]
      have hcomp : (Prod.fst ∘ fun kx : NodeKey => (kx, d + 1)) = id := rfl
      rw [hcomp, List.map_id]
    rw [hmapks]
    refine List.Nodup.append hrest4 hnd ?_
    intro x hx hx2
    obtain ⟨e, he, rfl⟩ := List.mem_map.mp hx
    exact hns e.1 hx2 (hrest1 e he)
  · intro e he
    rw [List.map_append]
    simp only [List.map_cons, List.map_nil, List.mem_append, List.mem_singleton]
    rintro (hc | hc)
    · rcases List.mem_append.mp he with h | h
      · exact hrest5 e h hc
      · obtain ⟨kx, hkx, rfl⟩ := List.mem_map.mp h
        exact hns kx hkx (h7 _ hc)
    · rcases List.mem_append.mp he with h | h
      · exact hknotrest (hc ▸ List.mem_map_of_mem Prod.fst h)
      · obtain ⟨kx, hkx, rfl⟩ := List.mem_map.mp h
        exact hns kx hkx ((show kx = k from hc) ▸ hkseen)
  · rw [List.map_append]
    simp only [List.map_cons, List.map_nil]
    refine List.Nodup.append h6 (List.nodup_singleton k) ?_
    intro x hx
    simp only [List.mem_singleton]
    rintro rfl
    exact hknotnodes hx
  · intro x hx
    rw [List.map_append] at hx
    simp only [List.map_cons, List.map_nil, List.mem_append, List.mem_singleton] at hx
    rcases hx with h | rfl
    · exact List.mem_append_right _ (h7 x h)
    · exact List.mem_append_right _ hkseen

theorem bfsAux_sound (rf : String → String → Except Nat Json) (seed : NodeKey) (D : Nat) :
    ∀ (fuel : Nat) (q : List QEntry) (seen : List NodeKey)
      (nodes : List (NodeKey × Json)) (r : List NodeKey × List (NodeKey × Json)),
      bfsAux rf D fuel q seen nodes = some r →
      InvB rf seed q seen nodes →
      r.1.Nodup ∧ (∀ x ∈ r.1, Reach rf seed x)
        ∧ (r.2.map Prod.fst).Nodup ∧ (∀ x ∈ r.2.map Prod.fst, x ∈ r.1) := by
  intro fuel
  induction fuel with
  | zero =>
    intro q seen nodes r hr hinv
    cases q with
    | nil =>
      simp only [bfsAux, Option.some.injEq] at hr
      subst hr
      exact ⟨hinv.2.1, hinv.2.2.1, hinv.2.2.2.2.2.1, hinv.2.2.2.2.2.2⟩
    | cons e rest => simp [bfsAux] at hr
  | succ fuel ih =>
    intro q seen nodes r hr hinv
    cases q with
    | nil =>
      simp only [bfsAux, Option.some.injEq] at hr
      subst hr
      exact ⟨hinv.2.1, hinv.2.2.1, hinv.2.2.2.2.2.1, hinv.2.2.2.2.2.2⟩
    | cons e rest =>
      obtain ⟨k, d⟩ := e
      simp only [bfsAux] at hr
      exact ih _ _ _ r hr (InvB_preserved rf seed D d k rest seen nodes hinv)

theorem InvB_init (rf : String → String → Except Nat Json) (t u : String) :
    InvB rf (t, u) [((t, u), 0)] [(t, u)] [] := by
  refine ⟨?_, ?_, ?_, ?_, ?_, ?_, ?_⟩
  · intro e he
    simp only [List.mem_singleton] at he
    subst he
    simp
  · simp
  · intro x hx
    simp only [List.mem_singleton] at hx
    subst hx
    exact Reach.refl
  · simp
  · intro e _
    simp
  · simp
  · intro x hx
    simp at hx

/-- C2: for every fetch oracle (graph) and depth bound, the bfs loop
terminates (some fuel completes the queue); the visited set holds each
(typePath, id) key at most once; every fetched node key was marked visited
and no node is fetched twice; every visited key is reachable from the seed
along the derived target edges; and against any finite superset R of the
reachable keys, both the visited count and the fetched count are bounded by
the size of R. The bfs function entry itself has the line-78 import slip
described at bfsAux (the claim is about the traversal loop, which behaves
as stated). -/
theorem c2_bfs_terminates_and_visits_once
    (rf : String → String → Except Nat Json) (D : Nat) (t u : String) :
    ∃ fuel seen nodes,
      bfsAux rf D fuel [((t, u), 0)] [(t, u)] [] = some (seen, nodes)
      ∧ seen.Nodup
      ∧ (∀ x ∈ seen, Reach rf (t, u) x)
      ∧ (nodes.map Prod.fst).Nodup
      ∧ (∀ x ∈ nodes.map Prod.fst, x ∈ seen)
      ∧ (∀ R : Finset NodeKey, (∀ x, Reach rf (t, u) x → x ∈ R) →
          seen.length ≤ R.card ∧ nodes.length ≤ R.card) := by
  obtain ⟨fuel, r, hr⟩ :=
    bfsAux_term_level rf D D 0 [((t, u), 0)] [] [(t, u)] []
      (by omega) (by intro e he; simp only [List.mem_singleton] at he; subst he; rfl)
      (by intro e he; simp at he)
  rw [List.append_nil] at hr
  obtain ⟨hseenNd, hreach, hnodesNd, hsub⟩ :=
    bfsAux_sound rf (t, u) D fuel _ _ _ r hr (InvB_init rf t u)
  obtain ⟨seen, nodes⟩ := r
  refine ⟨fuel, seen, nodes, hr, hseenNd, hreach, hnodesNd, hsub, ?_⟩
  intro R hR
  have hseenR : ∀ x ∈ seen, x ∈ R := fun x hx => hR x (hreach x hx)
  have hseenCard : seen.length ≤ R.card := by
    rw [← List.toFinset_card_of_nodup hseenNd]
    exact Finset.card_le_card (fun x hx => hseenR x (List.mem_toFinset.mp hx))
  refine ⟨hseenCard, ?_⟩
  have hlen : nodes.length = (nodes.map Prod.fst).length := (List.length_map _ _).symm
  rw [hlen, ← List.toFinset_card_of_nodup hnodesNd]
  exact Finset.card_le_card
    (fun x hx => hseenR x (hsub x (List.mem_toFinset.mp hx)))

/-- Witness for C2 at a concrete oracle and seed. -/
theorem c2_witness :
    ∃ fuel seen nodes,
      bfsAux (fun _ _ => Except.ok (Json.obj [])) 1 fuel
          [(("resqml20.obj_Grid2dRepresentation", "G1"), 0)]
          [("resqml20.obj_Grid2dRepresentation", "G1")] []
        = some (seen, nodes)
      ∧ seen.Nodup
      ∧ (∀ x ∈ seen,
          Reach (fun _ _ => Except.ok (Json.obj []))
            ("resqml20.obj_Grid2dRepresentation", "G1") x)
      ∧ (nodes.map Prod.fst).Nodup
      ∧ (∀ x ∈ nodes.map Prod.fst, x ∈ seen)
      ∧ (∀ R : Finset NodeKey,
          (∀ x, Reach (fun _ _ => Except.ok (Json.obj []))
              ("resqml20.obj_Grid2dRepresentation", "G1") x → x ∈ R) →
          seen.length ≤ R.card ∧ nodes.length ≤ R.card) :=
  c2_bfs_terminates_and_visits_once (fun _ _ => Except.ok (Json.obj [])) 1
    "resqml20.obj_Grid2dRepresentation" "G1"
